import Mathlib

/-!
Verification development for the robinhood-reports-convertor repository.

The Python sources are shallowly embedded as Lean definitions:

* `src/preprocess_csv_files.py` : `get_non_overlap_dataframe` (overlap resolver)
* `src/utils/common_util.py`    : `convert_accounting_string_to_float`,
  the `'int'` branch of `convert_col_type_for_dataframe` (cell level)
* `src/robinhood_reports_convertor.py` : `get_stock_dict`, `get_option_dict`,
  `get_stock_and_option_dict`, `calculate_quantity_value_from_balance`,
  `calculate_quantity_value_from_record`, `save_stock_result`,
  `save_option_result`

Modelling conventions:
* pandas DataFrames become `List` of row structures;
* Python `dict` / `defaultdict` (insertion ordered) become association lists
  (`List (κ × α)`) where updating an existing key keeps its position and a new
  key is appended at the end, exactly the CPython >= 3.7 ordering guarantee;
* Python floats become `ℚ` (all arithmetic in the program is +, -, *);
* Python string keys of the form `f'{date}*{transcode}*{price}*{...}'` become
  key structures; this is faithful as long as the joined fields contain no
  `'*'`, which holds for the report data the program consumes;
* a raising Python conversion (`float(...)`) returns `Option`, `none` being
  the propagated exception.
-/

/-- Insertion-ordered dictionary update: overwrite an existing key in place,
append a fresh key at the end (CPython dict assignment semantics). -/
def dictSet {κ α : Type} [DecidableEq κ] : List (κ × α) → κ → α → List (κ × α)
  | [], k, v => [(k, v)]
  | (k1, v1) :: rest, k, v =>
      if k1 = k then (k, v) :: rest else (k1, v1) :: dictSet rest k v

/-- Dictionary lookup with a default value (`defaultdict` read). -/
def lookupD {κ α : Type} [DecidableEq κ] : List (κ × α) → κ → α → α
  | [], _, dflt => dflt
  | (k1, v1) :: rest, k, dflt => if k1 = k then v1 else lookupD rest k dflt

/-- Dictionary lookup returning `none` for a missing key. -/
def lookupOpt {κ α : Type} [DecidableEq κ] : List (κ × α) → κ → Option α
  | [], _ => none
  | (k1, v1) :: rest, k => if k1 = k then some v1 else lookupOpt rest k

/-- Python `key in dict` membership test. -/
def hasKey {κ α : Type} [DecidableEq κ] : List (κ × α) → κ → Bool
  | [], _ => false
  | (k1, _) :: rest, k => if k1 = k then true else hasKey rest k

theorem mem_dictSet {κ α : Type} [DecidableEq κ] {d : List (κ × α)} {k : κ}
    {v : α} {p : κ × α} : p ∈ dictSet d k v → p = (k, v) ∨ p ∈ d := by
  induction d with
  | nil => intro h; simpa [dictSet] using h
  | cons hd tl ih =>
      obtain ⟨k1, v1⟩ := hd
      intro h
      by_cases hk : k1 = k
      · simp only [dictSet, if_pos hk, List.mem_cons] at h
        rcases h with h | h
        · exact Or.inl h
        · exact Or.inr (List.mem_cons_of_mem _ h)
      · simp only [dictSet, if_neg hk, List.mem_cons] at h
        rcases h with h | h
        · exact Or.inr (by simp [h])
        · rcases ih h with h2 | h2
          · exact Or.inl h2
          · exact Or.inr (List.mem_cons_of_mem _ h2)

theorem forall_mem_dictSet {κ α : Type} [DecidableEq κ] {d : List (κ × α)}
    {k : κ} {v : α} {P : κ × α → Prop} (hd : ∀ p ∈ d, P p) (hv : P (k, v)) :
    ∀ p ∈ dictSet d k v, P p := by
  intro p hp
  rcases mem_dictSet hp with h | h
  · exact h ▸ hv
  · exact hd p h

theorem lookupD_eq_default_or_mem {κ α : Type} [DecidableEq κ]
    (d : List (κ × α)) (k : κ) (dflt : α) :
    lookupD d k dflt = dflt ∨ (k, lookupD d k dflt) ∈ d := by
  induction d with
  | nil => exact Or.inl rfl
  | cons hd tl ih =>
      obtain ⟨k1, v1⟩ := hd
      by_cases hk : k1 = k
      · subst hk
        simp [lookupD]
      · simp only [lookupD, if_neg hk]
        rcases ih with h | h
        · exact Or.inl h
        · exact Or.inr (List.mem_cons_of_mem _ h)

theorem lookupOpt_dictSet_self {κ α : Type} [DecidableEq κ]
    (d : List (κ × α)) (k : κ) (v : α) : lookupOpt (dictSet d k v) k = some v := by
  induction d with
  | nil => simp [dictSet, lookupOpt]
  | cons hd tl ih =>
      obtain ⟨k1, v1⟩ := hd
      by_cases hk : k1 = k
      · simp [dictSet, lookupOpt, hk]
      · simp [dictSet, lookupOpt, hk, ih]

theorem lookupD_dictSet_self {κ α : Type} [DecidableEq κ]
    (d : List (κ × α)) (k : κ) (v : α) (dflt : α) :
    lookupD (dictSet d k v) k dflt = v := by
  induction d with
  | nil => simp [dictSet, lookupD]
  | cons hd tl ih =>
      obtain ⟨k1, v1⟩ := hd
      by_cases hk : k1 = k
      · simp [dictSet, lookupD, hk]
      · simp [dictSet, lookupD, hk, ih]

theorem dictSet_append_of_ne {κ α : Type} [DecidableEq κ]
    (d1 d2 : List (κ × α)) (k : κ) (v : α) (h : ∀ p ∈ d1, p.1 ≠ k) :
    dictSet (d1 ++ d2) k v = d1 ++ dictSet d2 k v := by
  induction d1 with
  | nil => simp
  | cons hd tl ih =>
      obtain ⟨k1, v1⟩ := hd
      have hne : k1 ≠ k := h (k1, v1) (by simp)
      simp only [List.cons_append, dictSet, if_neg hne, List.append_eq]
      rw [ih (fun p hp => h p (List.mem_cons_of_mem _ hp))]

theorem lookupD_append_of_ne {κ α : Type} [DecidableEq κ]
    (d1 d2 : List (κ × α)) (k : κ) (dflt : α) (h : ∀ p ∈ d1, p.1 ≠ k) :
    lookupD (d1 ++ d2) k dflt = lookupD d2 k dflt := by
  induction d1 with
  | nil => simp
  | cons hd tl ih =>
      obtain ⟨k1, v1⟩ := hd
      have hne : k1 ≠ k := h (k1, v1) (by simp)
      simp only [List.cons_append, lookupD, if_neg hne]
      exact ih (fun p hp => h p (List.mem_cons_of_mem _ hp))

theorem lookupD_eq_default_of_not_hasKey {κ α : Type} [DecidableEq κ]
    (d : List (κ × α)) (k : κ) (dflt : α) (h : hasKey d k = false) :
    lookupD d k dflt = dflt := by
  induction d with
  | nil => rfl
  | cons hd tl ih =>
      obtain ⟨k1, v1⟩ := hd
      by_cases hk : k1 = k
      · simp [hasKey, hk] at h
      · simp only [hasKey, if_neg hk] at h
        simp only [lookupD, if_neg hk]
        exact ih h

/-! ## Overlap resolver (`src/preprocess_csv_files.py`, `get_non_overlap_dataframe`) -/

/-- One row of a raw report CSV. The four comparison fields used by the
overlap resolver's `sort_values` call are explicit; every other column
(dates, description, trans code) is collected in `rest`, so that row equality
is full-row equality exactly as `DataFrame.equals` compares all columns. -/
structure CsvRow where
  instrument : String
  amount : ℚ
  price : ℚ
  quantity : Int
  rest : String
deriving DecidableEq, Repr

/-- Lexicographic comparison on the fixed tuple of comparison fields
`['Instrument', 'Amount', 'Price', 'Quantity']` used by `sort_values`. -/
def rowKeyLe (a b : CsvRow) : Bool :=
  if a.instrument ≠ b.instrument then decide (a.instrument < b.instrument)
  else if a.amount ≠ b.amount then decide (a.amount < b.amount)
  else if a.price ≠ b.price then decide (a.price < b.price)
  else decide (a.quantity ≤ b.quantity)

/-- Insert into a sorted list, keeping `rowKeyLe` order. -/
def insertSorted (a : CsvRow) : List CsvRow → List CsvRow
  | [] => [a]
  | b :: l => if rowKeyLe a b then a :: b :: l else b :: insertSorted a l

/-- `df.sort_values(by=['Instrument', 'Amount', 'Price', 'Quantity'])`
followed by `reset_index(drop=True)`: canonicalize a slice by sorting on the
comparison fields (a deterministic sort; the slices are compared for
row-for-row equality afterwards). -/
def sortRows (l : List CsvRow) : List CsvRow :=
  l.foldr insertSorted []

/-- `df.iloc[-i:len(df)]`: the last `i` rows (the whole frame when
`i ≥ len(df)`, matching Python negative-slice clamping). -/
def takeLast (l : List CsvRow) (i : Nat) : List CsvRow :=
  l.drop (l.length - i)

/-- The scan of `get_non_overlap_dataframe`, starting at index `i`:
compare the canonicalized last `i` rows of `first` with the canonicalized
first `i` rows of `second`; on equality drop the first `i` rows of `second`
and stop, otherwise try `i + 1`; after `i = len(second)` give `second` back
unchanged. -/
def overlapLoop (first second : List CsvRow) (i : Nat) : List CsvRow :=
  if h : i ≤ second.length then
    if sortRows (takeLast first i) = sortRows (second.take i) then
      second.drop i
    else
      overlapLoop first second (i + 1)
  else second
termination_by second.length + 1 - i
decreasing_by omega

/-- `get_non_overlap_dataframe(first_df, second_df)`: run the overlap scan
for `i` from `1` to `len(second_df)`. -/
def get_non_overlap_dataframe (first second : List CsvRow) : List CsvRow :=
  overlapLoop first second 1

/-! ## Accounting parser (`src/utils/common_util.py`) -/

/-- Numeric value of a digit list (most significant first). -/
def digitsVal (cs : List Char) : Nat :=
  cs.foldl (fun a c => 10 * a + (c.toNat - 48)) 0

/-- Model of Python `float(s)` on the decimal fragment the program feeds it:
an optional sign, then digits with at most one decimal point and at least one
digit. Any other string raises `ValueError`, modelled as `none`. -/
def parseUnsigned (cs : List Char) : Option ℚ :=
  let intPart := cs.takeWhile (fun c => c != '.')
  let rest := cs.dropWhile (fun c => c != '.')
  match rest with
  | [] =>
      if !intPart.isEmpty && intPart.all Char.isDigit then
        some (mkRat (digitsVal intPart) 1)
      else none
  | _ :: fracPart =>
      if (!intPart.isEmpty || !fracPart.isEmpty)
          && intPart.all Char.isDigit && fracPart.all Char.isDigit then
        some (mkRat (digitsVal intPart * 10 ^ fracPart.length + digitsVal fracPart)
          (10 ^ fracPart.length))
      else none

/-- Model of Python `float(s)`: `parseUnsigned` plus an optional leading
sign. -/
def parseFloat (cs : List Char) : Option ℚ :=
  match cs with
  | '-' :: rest => (parseUnsigned rest).map (fun q => -q)
  | '+' :: rest => parseUnsigned rest
  | _ => parseUnsigned cs

/-- Python `s.replace(c, '')`: remove every occurrence of one character. -/
def stripChar (c : Char) (cs : List Char) : List Char :=
  cs.filter (fun x => x != c)

/-- The character removals of `convert_accounting_string_to_float`, in source
order: `'$'`, `'('`, `')'`, `','` (each guarded by an `in` test in the
source, which is equivalent to the unconditional `replace`). -/
def stripAccounting (cs : List Char) : List Char :=
  stripChar ',' (stripChar ')' (stripChar '(' (stripChar '$' cs)))

/-- `convert_accounting_string_to_float(string_value)`.
`none` input models a null (`pd.isnull`) cell; the result `none` models the
`ValueError` that `float` raises on a non-numeric remainder. -/
def convert_accounting_string_to_float : Option (List Char) → Option ℚ
  | none => some 0
  | some cs => if cs.isEmpty then some 0 else parseFloat (stripAccounting cs)

/-- Model of `pd.to_numeric(x, errors='coerce')` on one string cell:
a parse failure coerces to NaN (`none`) instead of raising. -/
def pdToNumeric (cs : List Char) : Option ℚ := parseFloat cs

/-- One cell of `convert_col_type_for_dataframe(df, col, 'int')`:
`astype(str)` then `str.replace('S', '')`, then `pd.to_numeric(...,
errors='coerce')`, then `fillna(0).astype(int)` (truncation toward zero).
Malformed cells therefore become `0`; nothing raises. -/
def convert_col_type_int_cell (cs : List Char) : Int :=
  match pdToNumeric (stripChar 'S' cs) with
  | some q => Int.tdiv q.num (q.den : Int)
  | none => 0

/-! ## Position ledger (`src/robinhood_reports_convertor.py`) -/

/-- The transaction classification configuration
(`instrument_transcode_config.json`): per instrument kind, a map from
trans code to the `[behavior_class, sign_factor]` pair. A `none` result
models a code absent from that kind's mapping. -/
structure Config where
  stock : String → Option (Nat × Int)
  option : String → Option (Nat × Int)

/-- `instrument_config_dict['stock'][tc][0]` (behavior class). The `0`
default for an absent code is never exercised: the callers only look up
codes that passed the `transcode_value in instrument_config_dict['stock']`
membership test. -/
def stockCls (cfg : Config) (tc : String) : Nat :=
  match cfg.stock tc with
  | some cf => cf.1
  | none => 0

/-- `instrument_config_dict['stock'][tc][1]` (sign factor). -/
def stockFactor (cfg : Config) (tc : String) : Int :=
  match cfg.stock tc with
  | some cf => cf.2
  | none => 0

/-- `instrument_config_dict['option'][tc][0]` (behavior class). -/
def optCls (cfg : Config) (tc : String) : Nat :=
  match cfg.option tc with
  | some cf => cf.1
  | none => 0

/-- `instrument_config_dict['option'][tc][1]` (sign factor). -/
def optFactor (cfg : Config) (tc : String) : Int :=
  match cfg.option tc with
  | some cf => cf.2
  | none => 0

/-- One master-file transaction row as consumed by
`get_stock_and_option_dict` (`row[0]`, `row[4]`, `row[5]`, `row[6]`,
`row[7]`, `row[8]`). `description` stands for the leg description already cut
after the instrument ticker (the `re.split(...)[-1].strip()` result). -/
structure TxnRow where
  date : String
  description : String
  transcode : String
  quantity : Int
  price : ℚ
  amount : ℚ
deriving DecidableEq, Repr

/-- The stock aggregation key `f'{date}*{transcode}*{price}*{day_trade}'`. -/
structure StockKey where
  date : String
  transcode : String
  price : ℚ
  dayTrade : Nat
deriving DecidableEq, Repr

/-- The option aggregation key
`f'{date}*{transcode}*{price}*{description}'`. -/
structure OptionKey where
  date : String
  transcode : String
  price : ℚ
  desc : String
deriving DecidableEq, Repr

/-- `get_stock_dict`: compute the key and the updated `(quantity, amount)`
accumulator for one stock transaction, reading the current accumulator from
`stock_data_dict` (a `defaultdict` whose default is `(0, 0.0)`). -/
def get_stock_dict (cfg : Config) (d : List (StockKey × Int × ℚ))
    (dateValue tcValue : String) (quantityValue : Int)
    (priceValue amountValue : ℚ) (dayTradeValue : Nat) : StockKey × Int × ℚ :=
  let f : Int := stockFactor cfg tcValue
  let k : StockKey := ⟨dateValue, tcValue, priceValue, dayTradeValue⟩
  let old := lookupD d k (0, 0)
  if stockCls cfg tcValue = 1 then
    if old.1 = 0 then (k, old.1 + f * quantityValue, 0)
    else (k, old.1 - f * quantityValue, 0)
  else if stockCls cfg tcValue = 2 then
    (k, 0, old.2 + (f : ℚ) * amountValue)
  else
    (k, old.1 + f * quantityValue, old.2 - (f : ℚ) * amountValue)

/-- `get_option_dict`: compute the key and the updated `(quantity, amount)`
accumulator for one option transaction. -/
def get_option_dict (cfg : Config) (d : List (OptionKey × Int × ℚ))
    (dateValue descValue tcValue : String) (quantityValue : Int)
    (priceValue amountValue : ℚ) : OptionKey × Int × ℚ :=
  let f : Int := optFactor cfg tcValue
  let k : OptionKey := ⟨dateValue, tcValue, priceValue, descValue⟩
  let old := lookupD d k (0, 0)
  if optCls cfg tcValue = 1 ∨ optCls cfg tcValue = 2 ∨ optCls cfg tcValue = 3 then
    (k, old.1 + f * quantityValue, 0)
  else
    (k, old.1 + f * quantityValue, old.2 - (f : ℚ) * amountValue)

/-- The ledger state built by `get_stock_and_option_dict`: the two
insertion-ordered aggregation dictionaries and the per-date day-trade
counter `day_trade_dict`. -/
structure LedgerState where
  stockDict : List (StockKey × Int × ℚ)
  optionDict : List (OptionKey × Int × ℚ)
  dayTrade : List (String × List (String × Nat))
deriving Repr

/-- The day-trade list for `r.date` after the update at the top of the stock
branch of `get_stock_and_option_dict`: the date's first stock transaction
starts the list at sequence number 1; afterwards a `(trans_code, seq + 1)`
entry is appended exactly when the incoming code differs from the last
recorded one (`day_trade_dict[date_value][-1][0]`). -/
def dayTradeListAfter (st : LedgerState) (r : TxnRow) : List (String × Nat) :=
  match lookupOpt st.dayTrade r.date with
  | none => [(r.transcode, 1)]
  | some l =>
      if r.transcode ≠ (l.getLastD ("", 0)).1 then
        l ++ [(r.transcode, (l.getLastD ("", 0)).2 + 1)]
      else l

/-- One iteration of the row loop of `get_stock_and_option_dict`: stock
codes update the day-trade counter and the stock dictionary, option codes
update the option dictionary, unknown codes only log a warning. -/
def stepRow (cfg : Config) (st : LedgerState) (r : TxnRow) : LedgerState :=
  match cfg.stock r.transcode with
  | some _ =>
      let dtl := dayTradeListAfter st r
      let res := get_stock_dict cfg st.stockDict r.date r.transcode
        r.quantity r.price r.amount (dtl.getLastD ("", 0)).2
      { st with
          stockDict := dictSet st.stockDict res.1 res.2,
          dayTrade := dictSet st.dayTrade r.date dtl }
  | none =>
      match cfg.option r.transcode with
      | some _ =>
          let res := get_option_dict cfg st.optionDict r.date r.description
            r.transcode r.quantity r.price r.amount
          { st with optionDict := dictSet st.optionDict res.1 res.2 }
      | none => st

/-- `get_stock_and_option_dict`: fold the row loop over the instrument's
rows in file order, starting from empty dictionaries. -/
def get_stock_and_option_dict (cfg : Config) (rows : List TxnRow) : LedgerState :=
  rows.foldl (stepRow cfg) ⟨[], [], []⟩

/-- One row of the `STOCK` output sheet
(`Date, Type, Quantity, Price, Amount, Profit`). -/
structure StockOutRow where
  date : String
  transcode : String
  quantity : Int
  price : ℚ
  amount : ℚ
  profit : Option ℚ
deriving DecidableEq, Repr

/-- The loop body of `save_stock_result` over the reversed stock dictionary,
carrying the running `quantity_sum_value` and `amount_sum_value`; returns the
emitted rows together with the final values of both accumulators. -/
def stockOutLoop (cfg : Config) :
    List (StockKey × Int × ℚ) → Int → ℚ → List StockOutRow × Int × ℚ
  | [], qsum, asum => ([], qsum, asum)
  | e :: rest, qsum, asum =>
      if stockCls cfg e.1.transcode = 2 then
        let r := stockOutLoop cfg rest qsum asum
        (⟨e.1.date, e.1.transcode, 0, 0, e.2.2, some e.2.2⟩ :: r.1, r.2)
      else
        let qsum2 := qsum + e.2.1
        let asum2 := asum + e.2.2
        if qsum2 ≠ 0 then
          let r := stockOutLoop cfg rest qsum2 asum2
          (⟨e.1.date, e.1.transcode, e.2.1, e.1.price, e.2.2, none⟩ :: r.1, r.2)
        else
          let r := stockOutLoop cfg rest qsum2 0
          (⟨e.1.date, e.1.transcode, e.2.1, e.1.price, e.2.2, some asum2⟩ :: r.1, r.2)

/-- `save_stock_result`: iterate the stock dictionary in reverse insertion
order and emit the `STOCK` sheet rows. -/
def save_stock_result (cfg : Config) (d : List (StockKey × Int × ℚ)) :
    List StockOutRow :=
  (stockOutLoop cfg d.reverse 0 0).1

/-- `calculate_quantity_value_from_record`: record-based resolution of an
option leg quantity, keyed on the trans code. -/
def calculate_quantity_value_from_record (tcValue : String)
    (quantityValue recordQuantityValue : Int) : Int :=
  if tcValue = "BTO" ∨ tcValue = "STC" then
    quantityValue + recordQuantityValue
  else if tcValue = "BTC" ∨ tcValue = "STO" then
    quantityValue - recordQuantityValue
  else 0

/-- `calculate_quantity_value_from_balance`: balance-based update of an
option leg quantity; negate the contribution exactly when the code's
behavior class is 1 or 3 and the currently recorded position quantity is
strictly positive. -/
def calculate_quantity_value_from_balance (cfg : Config)
    (position : List (String × Int × ℚ)) (tcValue descValue : String)
    (quantityValue balanceQuantityValue : Int) : Int :=
  if (optCls cfg tcValue = 1 ∨ optCls cfg tcValue = 3)
      ∧ 0 < (lookupD position descValue (0, 0)).1 then
    balanceQuantityValue - quantityValue
  else
    balanceQuantityValue + quantityValue

/-- One row of the `OPTION` output sheet
(`Date, Description, Type, Quantity, Price, Amount, Profit`). -/
structure OptionOutRow where
  date : String
  description : String
  transcode : String
  quantity : Int
  price : ℚ
  amount : ℚ
  profit : Option ℚ
deriving DecidableEq, Repr

/-- The mutable state of the `save_option_result` pass:
`position_data_dict` and the awaiting-match set `position_data_set`. -/
structure OptPassState where
  position : List (String × Int × ℚ)
  awaiting : List String
deriving DecidableEq, Repr

/-- The position/awaiting-set update of one `save_option_result` iteration
(everything before the emission test `position_data_dict[desc][0] != 0`). -/
def optionPositionUpdate (cfg : Config) (s : OptPassState)
    (e : OptionKey × Int × ℚ) : OptPassState :=
  let desc := e.1.desc
  if desc ∈ s.awaiting then
    { position := dictSet s.position desc
        (calculate_quantity_value_from_record e.1.transcode e.2.1
          (lookupD s.position desc (0, 0)).1, e.2.2),
      awaiting := s.awaiting.filter (fun x => x ≠ desc) }
  else
    { position := dictSet s.position desc
        (calculate_quantity_value_from_balance cfg s.position e.1.transcode
          desc e.2.1 (lookupD s.position desc (0, 0)).1,
         (lookupD s.position desc (0, 0)).2 + e.2.2),
      awaiting :=
        if optCls cfg e.1.transcode = 3 ∧ hasKey s.position desc = false then
          desc :: s.awaiting
        else s.awaiting }

/-- One full `save_option_result` iteration: update the position state, then
emit the output row (profit exactly when the leg's running quantity landed on
zero, in which case the leg's accumulator is reset to `(0, 0.0)`). -/
def optionStep (cfg : Config) (s : OptPassState) (e : OptionKey × Int × ℚ) :
    OptPassState × OptionOutRow :=
  let desc := e.1.desc
  let s1 := optionPositionUpdate cfg s e
  if (lookupD s1.position desc (0, 0)).1 ≠ 0 then
    (s1, ⟨e.1.date, desc, e.1.transcode, e.2.1, e.1.price, e.2.2, none⟩)
  else
    ({ s1 with position := dictSet s1.position desc (0, 0) },
     ⟨e.1.date, desc, e.1.transcode, e.2.1, e.1.price, e.2.2,
      some (lookupD s1.position desc (0, 0)).2⟩)

/-- The loop of `save_option_result` over the reversed option dictionary. -/
def optionOutLoop (cfg : Config) (s : OptPassState) :
    List (OptionKey × Int × ℚ) → List OptionOutRow
  | [] => []
  | e :: rest =>
      let sr := optionStep cfg s e
      sr.2 :: optionOutLoop cfg sr.1 rest

/-- `save_option_result`: iterate the option dictionary in reverse insertion
order with fresh position state and emit the `OPTION` sheet rows. -/
def save_option_result (cfg : Config) (d : List (OptionKey × Int × ℚ)) :
    List OptionOutRow :=
  optionOutLoop cfg ⟨[], []⟩ d.reverse

/-! ## Claim C5: the accounting parser -/

theorem stripAccounting_eq_filter (cs : List Char) :
    stripAccounting cs
      = cs.filter (fun c => c != '$' && c != ',' && c != '(' && c != ')') := by
  simp only [stripAccounting, stripChar, List.filter_filter]
  apply List.filter_congr
  intro a _
  cases h1 : a != '$' <;> cases h2 : a != ',' <;> cases h3 : a != '(' <;>
    cases h4 : a != ')' <;> simp [h1, h2, h3, h4]

/-- C5: on null or empty input the accounting parser returns `0.0`; on any
other input it removes the characters `'$'`, `','`, `'('` and `')'` as plain
characters and parses the remainder as a decimal, without negating a
parenthesized value: `"($12.00)"` parses to `12.00` (not `-12.00`) and
`"$1,234.56"` parses to `1234.56`. -/
theorem C5_accounting_conversion :
    convert_accounting_string_to_float none = some 0
  ∧ convert_accounting_string_to_float (some []) = some 0
  ∧ (∀ cs : List Char, cs ≠ [] →
      convert_accounting_string_to_float (some cs)
        = parseFloat (cs.filter
            (fun c => c != '$' && c != ',' && c != '(' && c != ')')))
  ∧ convert_accounting_string_to_float (some "($12.00)".data) = some 12
  ∧ convert_accounting_string_to_float (some "$1,234.56".data)
      = some (1234.56 : ℚ) := by
  refine ⟨rfl, rfl, ?_, ?_, ?_⟩
  · intro cs h
    rw [show convert_accounting_string_to_float (some cs)
          = if cs.isEmpty then some 0 else parseFloat (stripAccounting cs) from rfl]
    rw [stripAccounting_eq_filter]
    simp [List.isEmpty_eq_false.mpr h]
  · have h1 : convert_accounting_string_to_float (some "($12.00)".data)
        = some (mkRat 1200 100) := by with_unfolding_all rfl
    rw [h1, Rat.mkRat_eq_div]
    norm_num
  · have h1 : convert_accounting_string_to_float (some "$1,234.56".data)
        = some (mkRat 123456 100) := by with_unfolding_all rfl
    rw [h1, Rat.mkRat_eq_div]
    norm_num

/-- C5 witness: the non-empty clause of `C5_accounting_conversion` at the
concrete input `"7"`. -/
theorem C5_accounting_conversion_witness :
    convert_accounting_string_to_float (some ['7'])
      = parseFloat (['7'].filter
          (fun c => c != '$' && c != ',' && c != '(' && c != ')')) :=
  C5_accounting_conversion.2.2.1 ['7'] (by decide)

/-! ## Claim C9: malformed numeric fields -/

/-- C9 counterexample: a malformed `Quantity` cell is not fatal — the
`'int'` branch of `convert_col_type_for_dataframe` coerces the unparseable
string `"abc"` to `0` (`errors='coerce'` plus `fillna(0)`) instead of
raising, so the batch is not aborted. -/
theorem C9_malformed_counterexample :
    pdToNumeric (stripChar 'S' "abc".data) = none
  ∧ convert_col_type_int_cell "abc".data = 0 := by
  constructor
  · with_unfolding_all decide
  · with_unfolding_all decide

/-- C9 (amended): the accounting parser is fatal on any non-empty, non-null
input whose remainder after removing `'$'`, `','`, `'('`, `')'` is not a
valid decimal (the `float` exception propagates), but a malformed `Quantity`
cell is not fatal: `pd.to_numeric(..., errors='coerce')` with `fillna(0)`
silently coerces it to `0` and processing continues. -/
theorem C9_malformed_numeric_amended :
    (∀ cs : List Char, cs ≠ [] → parseFloat (stripAccounting cs) = none →
        convert_accounting_string_to_float (some cs) = none)
  ∧ (∀ cs : List Char, pdToNumeric (stripChar 'S' cs) = none →
        convert_col_type_int_cell cs = 0) := by
  constructor
  · intro cs h hparse
    rw [show convert_accounting_string_to_float (some cs)
          = if cs.isEmpty then some 0 else parseFloat (stripAccounting cs) from rfl]
    simp [List.isEmpty_eq_false.mpr h, hparse]
  · intro cs h
    rw [show convert_col_type_int_cell cs
          = match pdToNumeric (stripChar 'S' cs) with
            | some q => Int.tdiv q.num (q.den : Int)
            | none => 0 from rfl]
    rw [h]

/-- C9 witness: both clauses of the amended claim at the concrete malformed
cell `"ab"`. -/
theorem C9_malformed_numeric_amended_witness :
    convert_accounting_string_to_float (some "ab".data) = none
  ∧ convert_col_type_int_cell "ab".data = 0 :=
  ⟨C9_malformed_numeric_amended.1 "ab".data (by decide) (by with_unfolding_all decide),
   C9_malformed_numeric_amended.2 "ab".data (by with_unfolding_all decide)⟩

/-! ## Concrete demonstration data used by witnesses and counterexamples -/

/-- A concrete transaction classification configuration used to instantiate
theorems (same shape as `instrument_transcode_config.json`). -/
def demoCfg : Config :=
  ⟨fun tc =>
      if tc = "Buy" then some (0, 1)
      else if tc = "Sell" then some (0, -1)
      else if tc = "SPL" then some (1, 1)
      else if tc = "AFEE" then some (2, 1)
      else none,
   fun tc =>
      if tc = "BTO" then some (3, 1)
      else if tc = "STC" then some (3, -1)
      else if tc = "BTC" then some (1, 1)
      else if tc = "STO" then some (1, -1)
      else if tc = "OEXP" then some (0, 1)
      else none⟩

/-! ## Claim C2: the stock accumulator update -/

/-- C2: the per-key `(quantity, amount)` update of `get_stock_dict`, by
behavior class — class 0 accumulates `(old_qty + factor*qty,
old_amt - factor*amt)`; class 1 adds `factor*qty` when the stored quantity
is 0 and subtracts it otherwise, storing amount 0; class 2 stores quantity 0
and `old_amt + factor*amt`. -/
theorem C2_stock_accumulator (cfg : Config) (d : List (StockKey × Int × ℚ))
    (dateValue tcValue : String) (q : Int) (price amt : ℚ) (dt : Nat)
    (c : Nat) (f : Int) (h : cfg.stock tcValue = some (c, f)) :
    (c = 0 →
      (get_stock_dict cfg d dateValue tcValue q price amt dt).2
        = ((lookupD d ⟨dateValue, tcValue, price, dt⟩ (0, 0)).1 + f * q,
           (lookupD d ⟨dateValue, tcValue, price, dt⟩ (0, 0)).2 - (f : ℚ) * amt))
  ∧ (c = 1 →
      ((lookupD d ⟨dateValue, tcValue, price, dt⟩ (0, 0)).1 = 0 →
        (get_stock_dict cfg d dateValue tcValue q price amt dt).2
          = ((lookupD d ⟨dateValue, tcValue, price, dt⟩ (0, 0)).1 + f * q, 0))
      ∧ ((lookupD d ⟨dateValue, tcValue, price, dt⟩ (0, 0)).1 ≠ 0 →
        (get_stock_dict cfg d dateValue tcValue q price amt dt).2
          = ((lookupD d ⟨dateValue, tcValue, price, dt⟩ (0, 0)).1 - f * q, 0)))
  ∧ (c = 2 →
      (get_stock_dict cfg d dateValue tcValue q price amt dt).2
        = (0, (lookupD d ⟨dateValue, tcValue, price, dt⟩ (0, 0)).2
            + (f : ℚ) * amt)) := by
  have hcls : stockCls cfg tcValue = c := by simp [stockCls, h]
  have hf : stockFactor cfg tcValue = f := by simp [stockFactor, h]
  refine ⟨?_, ?_, ?_⟩
  · intro hc
    subst hc
    simp [get_stock_dict, hcls, hf]
  · intro hc
    subst hc
    constructor
    · intro hzero
      simp only [Prod.mk_zero_zero] at hzero
      simp [get_stock_dict, hcls, hf, hzero]
    · intro hnz
      simp only [Prod.mk_zero_zero] at hnz
      simp [get_stock_dict, hcls, hf, hnz]
  · intro hc
    subst hc
    simp [get_stock_dict, hcls, hf]

/-- C2 witness: the class-0 clause at a concrete `Buy` transaction against
an empty accumulator. -/
theorem C2_stock_accumulator_witness :
    (get_stock_dict demoCfg [] "2024-01-02" "Buy" 3 10 7 1).2
      = ((lookupD ([] : List (StockKey × Int × ℚ))
            ⟨"2024-01-02", "Buy", 10, 1⟩ (0, 0)).1 + 1 * 3,
         (lookupD ([] : List (StockKey × Int × ℚ))
            ⟨"2024-01-02", "Buy", 10, 1⟩ (0, 0)).2 - (1 : ℚ) * 7) :=
  (C2_stock_accumulator demoCfg [] "2024-01-02" "Buy" 3 10 7 1 0 1
    (by decide)).1 rfl

/-! ## Claim C10: the balance-based option quantity update -/

/-- C10: `calculate_quantity_value_from_balance` returns
`balance_quantity - quantity` exactly when the code's behavior class is 1 or
3 and the recorded position quantity is strictly positive, and
`balance_quantity + quantity` in every other case. -/
theorem C10_balance_update (cfg : Config) (pos : List (String × Int × ℚ))
    (tc desc : String) (q bq : Int) (c : Nat) (f : Int)
    (h : cfg.option tc = some (c, f)) :
    ((c = 1 ∨ c = 3) → 0 < (lookupD pos desc (0, 0)).1 →
        calculate_quantity_value_from_balance cfg pos tc desc q bq = bq - q)
  ∧ ((c = 1 ∨ c = 3) → (lookupD pos desc (0, 0)).1 ≤ 0 →
        calculate_quantity_value_from_balance cfg pos tc desc q bq = bq + q)
  ∧ (c ≠ 1 → c ≠ 3 →
        calculate_quantity_value_from_balance cfg pos tc desc q bq = bq + q) := by
  have hcls : optCls cfg tc = c := by simp [optCls, h]
  refine ⟨?_, ?_, ?_⟩
  · intro hc hpos
    rw [calculate_quantity_value_from_balance, if_pos]
    exact ⟨by rw [hcls]; exact hc, hpos⟩
  · intro hc hle
    rw [calculate_quantity_value_from_balance, if_neg]
    intro hcond
    exact absurd hcond.2 (not_lt.mpr hle)
  · intro h1 h3
    rw [calculate_quantity_value_from_balance, if_neg]
    intro hcond
    rcases hcond.1 with hx | hx
    · exact h1 (hcls ▸ hx)
    · exact h3 (hcls ▸ hx)

/-- C10 witness: a class-1 code (`BTC`) with a strictly positive recorded
position takes the subtraction branch. -/
theorem C10_balance_update_witness :
    calculate_quantity_value_from_balance demoCfg [("D", (2, 0))] "BTC" "D" 1 5
      = 5 - 1 :=
  (C10_balance_update demoCfg [("D", (2, 0))] "BTC" "D" 1 5 1 1
    (by decide)).1 (Or.inl rfl) (by decide)

/-! ## Claim C4: the class-3 awaiting-match resolution -/

/-- C4 counterexample: when an awaiting class-3 leg is resolved by a `BTC`
(or `STO`) row, `calculate_quantity_value_from_record` computes
`row_quantity - recorded_quantity`, not `recorded_quantity - row_quantity`
as the claim's "subtracting the row quantity" reads: with a recorded
position of 1 and a row quantity of 3 the resolved running quantity is `2`,
not `1 - 3 = -2`. -/
theorem C4_record_resolution_counterexample :
    (lookupD (optionPositionUpdate demoCfg ⟨[("D", (1, 0))], ["D"]⟩
        (⟨"2024-01-02", "BTC", 1, "D"⟩, 3, 5)).position "D" (0, 0)).1 = 2
  ∧ ((2 : Int) ≠ 1 - 3) := by
  constructor
  · with_unfolding_all decide
  · decide

/-- C4 (amended): the first occurrence of a class-3 leg with no recorded
position is tentatively recorded (the row's quantity and amount are stored)
and the leg is added to the awaiting-match set; the next ledger row for the
same leg description resolves the running quantity by record-based
arithmetic — the row quantity plus the recorded quantity for `BTO`/`STC`,
the row quantity minus the recorded quantity for `BTC`/`STO` — instead of
balance-based sign flipping, and removes the leg from the awaiting-match
set. -/
theorem C4_option_awaiting_match (cfg : Config) (s : OptPassState)
    (e : OptionKey × Int × ℚ) :
    (e.1.desc ∉ s.awaiting → optCls cfg e.1.transcode = 3 →
       hasKey s.position e.1.desc = false →
       e.1.desc ∈ (optionPositionUpdate cfg s e).awaiting
       ∧ lookupD (optionPositionUpdate cfg s e).position e.1.desc (0, 0)
           = (e.2.1, e.2.2))
  ∧ (e.1.desc ∈ s.awaiting →
       lookupD (optionPositionUpdate cfg s e).position e.1.desc (0, 0)
         = (calculate_quantity_value_from_record e.1.transcode e.2.1
             (lookupD s.position e.1.desc (0, 0)).1, e.2.2)
       ∧ e.1.desc ∉ (optionPositionUpdate cfg s e).awaiting)
  ∧ (∀ q rq : Int, e.1.transcode = "BTO" ∨ e.1.transcode = "STC" →
       calculate_quantity_value_from_record e.1.transcode q rq = q + rq)
  ∧ (∀ q rq : Int, e.1.transcode = "BTC" ∨ e.1.transcode = "STO" →
       calculate_quantity_value_from_record e.1.transcode q rq = q - rq) := by
  refine ⟨?_, ?_, ?_, ?_⟩
  · intro hnotin hcls hkey
    have hlk : lookupD s.position e.1.desc (0, 0) = (0, 0) :=
      lookupD_eq_default_of_not_hasKey _ _ _ hkey
    constructor
    · simp [optionPositionUpdate, hnotin, hcls, hkey]
    · rw [show (optionPositionUpdate cfg s e).position
            = dictSet s.position e.1.desc
                (calculate_quantity_value_from_balance cfg s.position
                  e.1.transcode e.1.desc e.2.1
                  (lookupD s.position e.1.desc (0, 0)).1,
                 (lookupD s.position e.1.desc (0, 0)).2 + e.2.2) from by
          simp [optionPositionUpdate, hnotin]]
      rw [lookupD_dictSet_self]
      rw [calculate_quantity_value_from_balance, if_neg]
      · rw [hlk]
        norm_num
      · rw [hlk]
        intro hcond
        exact absurd hcond.2 (by norm_num)
  · intro hmem
    constructor
    · rw [show (optionPositionUpdate cfg s e).position
            = dictSet s.position e.1.desc
                (calculate_quantity_value_from_record e.1.transcode e.2.1
                  (lookupD s.position e.1.desc (0, 0)).1, e.2.2) from by
          simp [optionPositionUpdate, hmem]]
      rw [lookupD_dictSet_self]
    · simp [optionPositionUpdate, hmem]
  · intro q rq htc
    rw [calculate_quantity_value_from_record, if_pos htc]
  · intro q rq htc
    have hne1 : ¬(e.1.transcode = "BTO" ∨ e.1.transcode = "STC") := by
      rcases htc with h | h <;> rw [h] <;> decide
    rw [calculate_quantity_value_from_record, if_neg hne1, if_pos htc]

/-- C4 witness: a leg already in the awaiting-match set is resolved by the
record-based rule and leaves the set (`BTO` row of quantity 4 against a
recorded quantity of 2). -/
theorem C4_option_awaiting_match_witness :
    lookupD (optionPositionUpdate demoCfg ⟨[("L", (2, 0))], ["L"]⟩
        (⟨"2024-01-03", "BTO", 1, "L"⟩, 4, 9)).position "L" (0, 0)
      = (calculate_quantity_value_from_record "BTO" 4
          (lookupD [("L", ((2 : Int), (0 : ℚ)))] "L" (0, 0)).1, 9)
    ∧ "L" ∉ (optionPositionUpdate demoCfg ⟨[("L", (2, 0))], ["L"]⟩
        (⟨"2024-01-03", "BTO", 1, "L"⟩, 4, 9)).awaiting :=
  (C4_option_awaiting_match demoCfg ⟨[("L", (2, 0))], ["L"]⟩
      (⟨"2024-01-03", "BTO", 1, "L"⟩, 4, 9)).2.1 (by decide)

/-! ## Claim C1: the overlap resolver -/

theorem overlapLoop_no_match (A B : List CsvRow) :
    ∀ n i, B.length + 1 - i ≤ n →
      (∀ j, i ≤ j → j ≤ B.length →
        sortRows (takeLast A j) ≠ sortRows (B.take j)) →
      overlapLoop A B i = B := by
  intro n
  induction n with
  | zero =>
      intro i hn hj
      rw [overlapLoop, dif_neg]
      omega
  | succ n ih =>
      intro i hn hj
      rw [overlapLoop]
      by_cases hle : i ≤ B.length
      · rw [dif_pos hle, if_neg (hj i le_rfl hle)]
        exact ih (i + 1) (by omega) (fun j hij hjb => hj j (by omega) hjb)
      · rw [dif_neg hle]

theorem overlapLoop_first_match (A B : List CsvRow) :
    ∀ n i i0, B.length + 1 - i ≤ n →
      i ≤ i0 → i0 ≤ B.length →
      sortRows (takeLast A i0) = sortRows (B.take i0) →
      (∀ j, i ≤ j → j < i0 →
        sortRows (takeLast A j) ≠ sortRows (B.take j)) →
      overlapLoop A B i = B.drop i0 := by
  intro n
  induction n with
  | zero =>
      intro i i0 hn hi0 hlen hm hj
      omega
  | succ n ih =>
      intro i i0 hn hi0 hlen hm hj
      rw [overlapLoop, dif_pos (le_trans hi0 hlen)]
      by_cases hmatch : sortRows (takeLast A i) = sortRows (B.take i)
      · have hi : i = i0 := by
          by_contra hne
          exact (hj i le_rfl (lt_of_le_of_ne hi0 hne)) hmatch
        rw [if_pos hmatch, hi]
      · rw [if_neg hmatch]
        have hne : i ≠ i0 := fun he => hmatch (he ▸ hm)
        exact ih (i + 1) i0 (by omega) (by omega) hlen hm
          (fun j h1 h2 => hj j (by omega) h2)

/-- C1: `get_non_overlap_dataframe` scans `i` from 1 to `len(B)`, comparing
the canonicalized (sorted on the fixed comparison fields) last `i` rows of
`A` with the first `i` rows of `B`; if no `i` matches it returns `B`
unmodified, and at the smallest matching `i` (first match wins) it returns
`B` with its first `i` rows removed. -/
theorem C1_overlap_resolver (A B : List CsvRow) :
    ((∀ i, 1 ≤ i → i ≤ B.length →
        sortRows (takeLast A i) ≠ sortRows (B.take i)) →
      get_non_overlap_dataframe A B = B)
  ∧ (∀ i, 1 ≤ i → i ≤ B.length →
      sortRows (takeLast A i) = sortRows (B.take i) →
      (∀ j, 1 ≤ j → j < i →
        sortRows (takeLast A j) ≠ sortRows (B.take j)) →
      get_non_overlap_dataframe A B = B.drop i) := by
  constructor
  · intro hno
    exact overlapLoop_no_match A B (B.length + 1) 1 (by omega) hno
  · intro i h1 hlen hm hj
    exact overlapLoop_first_match A B (B.length + 1) 1 i (by omega) h1 hlen hm hj

/-- C1 witness: a two-row older table whose last row equals the first row of
the newer table; the resolver finds overlap length 1 and drops one row. -/
theorem C1_overlap_resolver_witness :
    get_non_overlap_dataframe
        [⟨"A", 1, 2, 3, "x"⟩, ⟨"B", 4, 5, 6, "y"⟩]
        [⟨"B", 4, 5, 6, "y"⟩, ⟨"C", 7, 8, 9, "z"⟩]
      = List.drop 1 [⟨"B", 4, 5, 6, "y"⟩, ⟨"C", 7, 8, 9, "z"⟩] :=
  (C1_overlap_resolver
      [⟨"A", 1, 2, 3, "x"⟩, ⟨"B", 4, 5, 6, "y"⟩]
      [⟨"B", 4, 5, 6, "y"⟩, ⟨"C", 7, 8, 9, "z"⟩]).2 1
    (by decide) (by decide) (by decide)
    (fun j hj1 hj2 => absurd (Nat.lt_of_lt_of_le hj2 hj1) (lt_irrefl j))

/-! ## Claim C6: the day-trade counter -/

theorem get_stock_dict_key (cfg : Config) (d : List (StockKey × Int × ℚ))
    (dateValue tcValue : String) (q : Int) (price amt : ℚ) (dt : Nat) :
    (get_stock_dict cfg d dateValue tcValue q price amt dt).1
      = ⟨dateValue, tcValue, price, dt⟩ := by
  simp only [get_stock_dict]
  split
  · split <;> rfl
  · split <;> rfl

theorem stepRow_stock (cfg : Config) (st : LedgerState) (r : TxnRow)
    (cf : Nat × Int) (h : cfg.stock r.transcode = some cf) :
    stepRow cfg st r
      = { st with
            stockDict := dictSet st.stockDict
              (get_stock_dict cfg st.stockDict r.date r.transcode r.quantity
                r.price r.amount
                (((dayTradeListAfter st r).getLastD ("", 0)).2)).1
              (get_stock_dict cfg st.stockDict r.date r.transcode r.quantity
                r.price r.amount
                (((dayTradeListAfter st r).getLastD ("", 0)).2)).2,
            dayTrade := dictSet st.dayTrade r.date (dayTradeListAfter st r) } := by
  simp only [stepRow, h]

/-- C6: for a stock transaction the date's counter starts at sequence
number 1 on that date's first stock transaction; a new `(code, seq + 1)`
entry is appended exactly when the incoming code differs from the
immediately-preceding recorded code on the same date (no change otherwise);
and the stock ledger key is built with the last sequence number recorded for
the transaction's date. -/
theorem C6_day_trade_counter (cfg : Config) (st : LedgerState) (r : TxnRow)
    (cf : Nat × Int) (h : cfg.stock r.transcode = some cf) :
    (lookupOpt st.dayTrade r.date = none →
        lookupOpt (stepRow cfg st r).dayTrade r.date = some [(r.transcode, 1)])
  ∧ (∀ l e, lookupOpt st.dayTrade r.date = some l → l.getLast? = some e →
        (r.transcode ≠ e.1 →
          lookupOpt (stepRow cfg st r).dayTrade r.date
            = some (l ++ [(r.transcode, e.2 + 1)]))
        ∧ (r.transcode = e.1 →
          lookupOpt (stepRow cfg st r).dayTrade r.date = some l))
  ∧ ((stepRow cfg st r).stockDict
        = dictSet st.stockDict
            ⟨r.date, r.transcode, r.price,
              ((dayTradeListAfter st r).getLastD ("", 0)).2⟩
            (get_stock_dict cfg st.stockDict r.date r.transcode r.quantity
              r.price r.amount ((dayTradeListAfter st r).getLastD ("", 0)).2).2) := by
  rw [stepRow_stock cfg st r cf h]
  refine ⟨?_, ?_, ?_⟩
  · intro hnone
    rw [show (LedgerState.dayTrade
          { st with
              stockDict := dictSet st.stockDict _ _,
              dayTrade := dictSet st.dayTrade r.date (dayTradeListAfter st r) })
        = dictSet st.dayTrade r.date (dayTradeListAfter st r) from rfl]
    rw [lookupOpt_dictSet_self]
    rw [dayTradeListAfter, hnone]
  · intro l e hlook hlast
    have hlastD : l.getLastD ("", 0) = e := by
      rw [List.getLastD_eq_getLast?, hlast]
      rfl
    constructor
    · intro hne
      rw [show (LedgerState.dayTrade
            { st with
                stockDict := dictSet st.stockDict _ _,
                dayTrade := dictSet st.dayTrade r.date (dayTradeListAfter st r) })
          = dictSet st.dayTrade r.date (dayTradeListAfter st r) from rfl]
      rw [lookupOpt_dictSet_self]
      rw [dayTradeListAfter, hlook]
      dsimp only
      rw [hlastD, if_pos hne]
    · intro heq
      rw [show (LedgerState.dayTrade
            { st with
                stockDict := dictSet st.stockDict _ _,
                dayTrade := dictSet st.dayTrade r.date (dayTradeListAfter st r) })
          = dictSet st.dayTrade r.date (dayTradeListAfter st r) from rfl]
      rw [lookupOpt_dictSet_self]
      rw [dayTradeListAfter, hlook]
      dsimp only
      rw [hlastD, if_neg (by simpa using heq)]
  · rw [show (LedgerState.stockDict
          { st with
              stockDict := dictSet st.stockDict
                (get_stock_dict cfg st.stockDict r.date r.transcode r.quantity
                  r.price r.amount
                  (((dayTradeListAfter st r).getLastD ("", 0)).2)).1
                (get_stock_dict cfg st.stockDict r.date r.transcode r.quantity
                  r.price r.amount
                  (((dayTradeListAfter st r).getLastD ("", 0)).2)).2,
              dayTrade := dictSet st.dayTrade r.date (dayTradeListAfter st r) })
        = dictSet st.stockDict
            (get_stock_dict cfg st.stockDict r.date r.transcode r.quantity
              r.price r.amount
              (((dayTradeListAfter st r).getLastD ("", 0)).2)).1
            (get_stock_dict cfg st.stockDict r.date r.transcode r.quantity
              r.price r.amount
              (((dayTradeListAfter st r).getLastD ("", 0)).2)).2 from rfl]
    rw [get_stock_dict_key]

/-- C6 witness: a `Sell` arriving after a recorded `Buy` on the same date
appends the pair `("Sell", 2)`. -/
theorem C6_day_trade_counter_witness :
    lookupOpt (stepRow demoCfg
        ⟨[], [], [("2024-01-02", [("Buy", 1)])]⟩
        ⟨"2024-01-02", "", "Sell", 2, 10, 20⟩).dayTrade "2024-01-02"
      = some ([("Buy", 1)] ++ [("Sell", 1 + 1)]) :=
  ((C6_day_trade_counter demoCfg ⟨[], [], [("2024-01-02", [("Buy", 1)])]⟩
      ⟨"2024-01-02", "", "Sell", 2, 10, 20⟩ (0, -1) (by decide)).2.1
    [("Buy", 1)] ("Buy", 1) (by decide) (by decide)).1 (by decide)

/-! ## Claim C7: output ordering and profit placement -/

/-- Running total of the quantities that `save_stock_result` feeds into
`quantity_sum_value`: class-2 (fee) entries are skipped, every other entry
contributes its aggregated quantity. -/
def sumNonFeeQty (cfg : Config) (es : List (StockKey × Int × ℚ)) : Int :=
  (es.map (fun e => if stockCls cfg e.1.transcode = 2 then 0 else e.2.1)).sum

/-- Placeholder row for total indexing of the `STOCK` sheet. -/
def defaultStockOutRow : StockOutRow := ⟨"", "", 0, 0, 0, none⟩

/-- Placeholder entry for total indexing of the stock dictionary. -/
def defaultStockEntry : StockKey × Int × ℚ := (⟨"", "", 0, 0⟩, 0, 0)

theorem stockOutLoop_length (cfg : Config) :
    ∀ es (qsum : Int) (asum : ℚ),
      ((stockOutLoop cfg es qsum asum).1).length = es.length := by
  intro es
  induction es with
  | nil => intro qsum asum; rfl
  | cons e rest ih =>
      intro qsum asum
      simp only [stockOutLoop]
      by_cases hcls : stockCls cfg e.1.transcode = 2
      · rw [if_pos hcls]
        simp [ih]
      · rw [if_neg hcls]
        by_cases hq : qsum + e.2.1 ≠ 0
        · rw [if_pos hq]
          simp [ih]
        · rw [if_neg hq]
          simp [ih]

theorem stockOutLoop_order (cfg : Config) :
    ∀ es (qsum : Int) (asum : ℚ),
      ((stockOutLoop cfg es qsum asum).1).map (fun r => (r.date, r.transcode))
        = es.map (fun e => (e.1.date, e.1.transcode)) := by
  intro es
  induction es with
  | nil => intro qsum asum; rfl
  | cons e rest ih =>
      intro qsum asum
      simp only [stockOutLoop]
      by_cases hcls : stockCls cfg e.1.transcode = 2
      · rw [if_pos hcls]
        simp [ih]
      · rw [if_neg hcls]
        by_cases hq : qsum + e.2.1 ≠ 0
        · rw [if_pos hq]
          simp [ih]
        · rw [if_neg hq]
          simp [ih]

theorem sumNonFeeQty_cons (cfg : Config) (e : StockKey × Int × ℚ)
    (es : List (StockKey × Int × ℚ)) :
    sumNonFeeQty cfg (e :: es)
      = (if stockCls cfg e.1.transcode = 2 then 0 else e.2.1)
        + sumNonFeeQty cfg es := by
  simp [sumNonFeeQty]

theorem stockOutLoop_profit_iff (cfg : Config) :
    ∀ es (qsum : Int) (asum : ℚ) (j : Nat), j < es.length →
      ((((stockOutLoop cfg es qsum asum).1.getD j defaultStockOutRow).profit).isSome = true
        ↔ (stockCls cfg ((es.getD j defaultStockEntry).1.transcode) = 2
            ∨ qsum + sumNonFeeQty cfg (es.take (j + 1)) = 0)) := by
  intro es
  induction es with
  | nil =>
      intro qsum asum j hj
      simp at hj
  | cons e rest ih =>
      intro qsum asum j hj
      simp only [stockOutLoop]
      by_cases hcls : stockCls cfg e.1.transcode = 2
      · rw [if_pos hcls]
        cases j with
        | zero =>
            simp only [List.getD_cons_zero, List.take_succ_cons]
            constructor
            · intro _
              exact Or.inl hcls
            · intro _
              rfl
        | succ j =>
            simp only [List.getD_cons_succ, List.take_succ_cons,
              sumNonFeeQty_cons, if_pos hcls, zero_add]
            exact ih qsum asum j (by simpa using hj)
      · rw [if_neg hcls]
        by_cases hq : qsum + e.2.1 ≠ 0
        · rw [if_pos hq]
          cases j with
          | zero =>
              simp only [List.getD_cons_zero, List.take_succ_cons,
                List.take_zero, sumNonFeeQty_cons, if_neg hcls]
              constructor
              · intro hfalse
                simp [defaultStockOutRow] at hfalse
              · intro hdisj
                rcases hdisj with hx | hx
                · exact absurd hx hcls
                · rw [show sumNonFeeQty cfg ([] : List (StockKey × Int × ℚ)) = 0
                      from rfl, add_zero] at hx
                  exact absurd hx hq
          | succ j =>
              simp only [List.getD_cons_succ, List.take_succ_cons,
                sumNonFeeQty_cons, if_neg hcls, ← add_assoc]
              exact ih (qsum + e.2.1) (asum + e.2.2) j (by simpa using hj)
        · rw [if_neg hq]
          push_neg at hq
          cases j with
          | zero =>
              simp only [List.getD_cons_zero, List.take_succ_cons,
                List.take_zero, sumNonFeeQty_cons, if_neg hcls]
              constructor
              · intro _
                refine Or.inr ?_
                rw [show sumNonFeeQty cfg ([] : List (StockKey × Int × ℚ)) = 0
                    from rfl, add_zero]
                exact hq
              · intro _
                rfl
          | succ j =>
              simp only [List.getD_cons_succ, List.take_succ_cons,
                sumNonFeeQty_cons, if_neg hcls, ← add_assoc]
              exact ih (qsum + e.2.1) 0 j (by simpa using hj)

theorem optionStep_row_fields (cfg : Config) (s : OptPassState)
    (e : OptionKey × Int × ℚ) :
    ((optionStep cfg s e).2.date, (optionStep cfg s e).2.description,
      (optionStep cfg s e).2.transcode)
      = (e.1.date, e.1.desc, e.1.transcode) := by
  simp only [optionStep]
  split <;> rfl

theorem optionOutLoop_order (cfg : Config) :
    ∀ es (s : OptPassState),
      (optionOutLoop cfg s es).map (fun r => (r.date, r.description, r.transcode))
        = es.map (fun e => (e.1.date, e.1.desc, e.1.transcode)) := by
  intro es
  induction es with
  | nil => intro s; rfl
  | cons e rest ih =>
      intro s
      simp only [optionOutLoop, List.map_cons]
      rw [ih]
      have h := optionStep_row_fields cfg s e
      rw [h]

theorem optionStep_profit_iff (cfg : Config) (s : OptPassState)
    (e : OptionKey × Int × ℚ) :
    (((optionStep cfg s e).2.profit).isSome = true
      ↔ (lookupD (optionPositionUpdate cfg s e).position e.1.desc (0, 0)).1 = 0) := by
  simp only [optionStep]
  split
  · next hcond =>
      simp only []
      constructor
      · intro hfalse
        simp at hfalse
      · intro hzero
        exact absurd hzero hcond
  · next hcond =>
      push_neg at hcond
      simp only []
      constructor
      · intro _
        exact hcond
      · intro _
        rfl

/-- C7 counterexample: a fee (class-2) entry always carries its own amount
as `Profit`: with an `AFEE` group inserted before a still-open `Buy` group,
the emitted `AFEE` row has `Profit = 5` although the running non-fee
quantity at that row is `1`, not `0` — so `Profit` is not empty on every
non-position-closing row. -/
theorem C7_profit_counterexample :
    ((save_stock_result demoCfg
        [(⟨"2024-01-02", "AFEE", 0, 1⟩, (0, 5)),
         (⟨"2024-01-03", "Buy", 10, 1⟩, (1, -10))]).map (fun r => r.profit)
      = [none, some 5])
  ∧ sumNonFeeQty demoCfg
      (([(⟨"2024-01-02", "AFEE", 0, 1⟩, ((0 : Int), (5 : ℚ))),
         (⟨"2024-01-03", "Buy", 10, 1⟩, (1, -10))].reverse).take 2) = 1 := by
  constructor
  · with_unfolding_all decide
  · with_unfolding_all decide

/-- C7 (amended): rows of the `STOCK` and `OPTION` sheets appear in reverse
insertion order of their aggregation keys; on the `STOCK` sheet `Profit` is
empty except on position-closing rows (where the running non-fee quantity
returns to zero) and on class-2 fee rows, which always carry their own
amount as `Profit`; on the `OPTION` sheet `Profit` is empty exactly on rows
where the leg's running quantity has not returned to zero. -/
theorem C7_output_invariants (cfg : Config) (sd : List (StockKey × Int × ℚ))
    (od : List (OptionKey × Int × ℚ)) :
    ((save_stock_result cfg sd).map (fun r => (r.date, r.transcode))
        = sd.reverse.map (fun e => (e.1.date, e.1.transcode)))
  ∧ (∀ j, j < (save_stock_result cfg sd).length →
      ((((save_stock_result cfg sd).getD j defaultStockOutRow).profit).isSome = true
        ↔ (stockCls cfg ((sd.reverse.getD j defaultStockEntry).1.transcode) = 2
            ∨ sumNonFeeQty cfg (sd.reverse.take (j + 1)) = 0)))
  ∧ ((save_option_result cfg od).map (fun r => (r.date, r.description, r.transcode))
        = od.reverse.map (fun e => (e.1.date, e.1.desc, e.1.transcode)))
  ∧ (∀ (s : OptPassState) (e : OptionKey × Int × ℚ),
      (((optionStep cfg s e).2.profit).isSome = true
        ↔ (lookupD (optionPositionUpdate cfg s e).position e.1.desc (0, 0)).1 = 0)) := by
  refine ⟨?_, ?_, ?_, ?_⟩
  · exact stockOutLoop_order cfg sd.reverse 0 0
  · intro j hj
    have hj2 : j < sd.reverse.length := by
      rw [save_stock_result] at hj
      rw [← stockOutLoop_length cfg sd.reverse 0 0]
      exact hj
    have h := stockOutLoop_profit_iff cfg sd.reverse 0 0 j hj2
    rw [zero_add] at h
    exact h
  · exact optionOutLoop_order cfg od.reverse ⟨[], []⟩
  · intro s e
    exact optionStep_profit_iff cfg s e

/-- C7 witness: the amended invariants at a one-entry stock dictionary and
an empty option dictionary; the single emitted row closes the position. -/
theorem C7_output_invariants_witness :
    ((save_stock_result demoCfg
        [(⟨"2024-01-05", "Sell", 3, 1⟩, (0, 6))]).map (fun r => (r.date, r.transcode))
      = (([(⟨"2024-01-05", "Sell", 3, 1⟩, (0, 6))] :
            List (StockKey × Int × ℚ)).reverse).map
          (fun e => (e.1.date, e.1.transcode)))
  ∧ ((((save_stock_result demoCfg
        [(⟨"2024-01-05", "Sell", 3, 1⟩, (0, 6))]).getD 0
          defaultStockOutRow).profit).isSome = true
      ↔ (stockCls demoCfg
            (((([(⟨"2024-01-05", "Sell", 3, 1⟩, (0, 6))] :
                List (StockKey × Int × ℚ)).reverse).getD 0
              defaultStockEntry).1.transcode) = 2
        ∨ sumNonFeeQty demoCfg
            ((([(⟨"2024-01-05", "Sell", 3, 1⟩, (0, 6))] :
                List (StockKey × Int × ℚ)).reverse).take (0 + 1))
          = 0)) :=
  ⟨(C7_output_invariants demoCfg
      [(⟨"2024-01-05", "Sell", 3, 1⟩, (0, 6))] []).1,
   (C7_output_invariants demoCfg
      [(⟨"2024-01-05", "Sell", 3, 1⟩, (0, 6))] []).2.1 0 (by with_unfolding_all decide)⟩

/-! ## Claim C8: ledger quantity conservation -/

/-- Sum of the aggregated quantities stored in a stock dictionary. -/
def sumQty (d : List (StockKey × Int × ℚ)) : Int :=
  (d.map (fun e => e.2.1)).sum

/-- Sum of the aggregated amounts stored in a stock dictionary. -/
def sumAmt (d : List (StockKey × Int × ℚ)) : ℚ :=
  (d.map (fun e => e.2.2)).sum

theorem sumQty_dictSet (d : List (StockKey × Int × ℚ)) (k : StockKey)
    (v : Int × ℚ) :
    sumQty (dictSet d k v) + (lookupD d k (0, 0)).1 = sumQty d + v.1 := by
  induction d with
  | nil => simp [dictSet, sumQty, lookupD]
  | cons e rest ih =>
      obtain ⟨k1, v1⟩ := e
      by_cases hk : k1 = k
      · simp only [dictSet, if_pos hk, lookupD, sumQty, List.map_cons,
          List.sum_cons] at *
        ring
      · simp only [dictSet, if_neg hk, lookupD, sumQty, List.map_cons,
          List.sum_cons] at *
        linarith [ih]

theorem sumAmt_dictSet (d : List (StockKey × Int × ℚ)) (k : StockKey)
    (v : Int × ℚ) :
    sumAmt (dictSet d k v) + (lookupD d k (0, 0)).2 = sumAmt d + v.2 := by
  induction d with
  | nil => simp [dictSet, sumAmt, lookupD]
  | cons e rest ih =>
      obtain ⟨k1, v1⟩ := e
      by_cases hk : k1 = k
      · simp only [dictSet, if_pos hk, lookupD, sumAmt, List.map_cons,
          List.sum_cons] at *
        ring
      · simp only [dictSet, if_neg hk, lookupD, sumAmt, List.map_cons,
          List.sum_cons] at *
        linarith [ih]

theorem sumQty_reverse (d : List (StockKey × Int × ℚ)) :
    sumQty d.reverse = sumQty d := by
  simp only [sumQty]
  rw [List.map_reverse, List.sum_reverse]

theorem sumAmt_reverse (d : List (StockKey × Int × ℚ)) :
    sumAmt d.reverse = sumAmt d := by
  simp only [sumAmt]
  rw [List.map_reverse, List.sum_reverse]

theorem get_stock_dict_class0 (cfg : Config) (d : List (StockKey × Int × ℚ))
    (dateValue tcValue : String) (q : Int) (price amt : ℚ) (dt : Nat)
    (f : Int) (h : cfg.stock tcValue = some (0, f)) :
    get_stock_dict cfg d dateValue tcValue q price amt dt
      = (⟨dateValue, tcValue, price, dt⟩,
         (lookupD d ⟨dateValue, tcValue, price, dt⟩ (0, 0)).1 + f * q,
         (lookupD d ⟨dateValue, tcValue, price, dt⟩ (0, 0)).2 - (f : ℚ) * amt) := by
  have hcls : stockCls cfg tcValue = 0 := by simp [stockCls, h]
  have hfac : stockFactor cfg tcValue = f := by simp [stockFactor, h]
  simp [get_stock_dict, hcls, hfac]

theorem stepRow_stock_sums (cfg : Config) (st : LedgerState) (r : TxnRow)
    (f : Int) (h : cfg.stock r.transcode = some (0, f)) :
    sumQty (stepRow cfg st r).stockDict = sumQty st.stockDict + f * r.quantity
    ∧ sumAmt (stepRow cfg st r).stockDict
        = sumAmt st.stockDict - (f : ℚ) * r.amount := by
  rw [stepRow_stock cfg st r (0, f) h]
  rw [show (LedgerState.stockDict
        { st with
            stockDict := dictSet st.stockDict
              (get_stock_dict cfg st.stockDict r.date r.transcode r.quantity
                r.price r.amount
                (((dayTradeListAfter st r).getLastD ("", 0)).2)).1
              (get_stock_dict cfg st.stockDict r.date r.transcode r.quantity
                r.price r.amount
                (((dayTradeListAfter st r).getLastD ("", 0)).2)).2,
            dayTrade := dictSet st.dayTrade r.date (dayTradeListAfter st r) })
      = dictSet st.stockDict
          (get_stock_dict cfg st.stockDict r.date r.transcode r.quantity
            r.price r.amount
            (((dayTradeListAfter st r).getLastD ("", 0)).2)).1
          (get_stock_dict cfg st.stockDict r.date r.transcode r.quantity
            r.price r.amount
            (((dayTradeListAfter st r).getLastD ("", 0)).2)).2 from rfl]
  rw [get_stock_dict_class0 cfg st.stockDict r.date r.transcode r.quantity
    r.price r.amount (((dayTradeListAfter st r).getLastD ("", 0)).2) f h]
  constructor
  · have hset := sumQty_dictSet st.stockDict
      ⟨r.date, r.transcode, r.price, ((dayTradeListAfter st r).getLastD ("", 0)).2⟩
      ((lookupD st.stockDict
          ⟨r.date, r.transcode, r.price,
            ((dayTradeListAfter st r).getLastD ("", 0)).2⟩ (0, 0)).1 + f * r.quantity,
       (lookupD st.stockDict
          ⟨r.date, r.transcode, r.price,
            ((dayTradeListAfter st r).getLastD ("", 0)).2⟩ (0, 0)).2
         - (f : ℚ) * r.amount)
    dsimp only at hset ⊢
    linarith [hset]
  · have hset := sumAmt_dictSet st.stockDict
      ⟨r.date, r.transcode, r.price, ((dayTradeListAfter st r).getLastD ("", 0)).2⟩
      ((lookupD st.stockDict
          ⟨r.date, r.transcode, r.price,
            ((dayTradeListAfter st r).getLastD ("", 0)).2⟩ (0, 0)).1 + f * r.quantity,
       (lookupD st.stockDict
          ⟨r.date, r.transcode, r.price,
            ((dayTradeListAfter st r).getLastD ("", 0)).2⟩ (0, 0)).2
         - (f : ℚ) * r.amount)
    dsimp only at hset ⊢
    linarith [hset]

theorem foldl_stock_sums (cfg : Config) :
    ∀ (rows : List TxnRow) (st : LedgerState),
      (∀ r ∈ rows, ∃ f, cfg.stock r.transcode = some (0, f)) →
      sumQty (rows.foldl (stepRow cfg) st).stockDict
          = sumQty st.stockDict
            + (rows.map (fun r => stockFactor cfg r.transcode * r.quantity)).sum
      ∧ sumAmt (rows.foldl (stepRow cfg) st).stockDict
          = sumAmt st.stockDict
            - (rows.map (fun r => (stockFactor cfg r.transcode : ℚ) * r.amount)).sum := by
  intro rows
  induction rows with
  | nil =>
      intro st hall
      simp
  | cons r rest ih =>
      intro st hall
      obtain ⟨f, hf⟩ := hall r (by simp)
      have hfac : stockFactor cfg r.transcode = f := by simp [stockFactor, hf]
      have hstep := stepRow_stock_sums cfg st r f hf
      have hrest := ih (stepRow cfg st r) (fun x hx => hall x (by simp [hx]))
      rw [List.foldl_cons]
      constructor
      · rw [hrest.1, hstep.1, List.map_cons, List.sum_cons, hfac]
        ring
      · rw [hrest.2, hstep.2, List.map_cons, List.sum_cons, hfac]
        ring

theorem foldl_stock_keys_cls0 (cfg : Config) :
    ∀ (rows : List TxnRow) (st : LedgerState),
      (∀ r ∈ rows, ∃ f, cfg.stock r.transcode = some (0, f)) →
      (∀ e ∈ st.stockDict, stockCls cfg e.1.transcode = 0) →
      ∀ e ∈ (rows.foldl (stepRow cfg) st).stockDict,
        stockCls cfg e.1.transcode = 0 := by
  intro rows
  induction rows with
  | nil =>
      intro st hall hinv
      simpa using hinv
  | cons r rest ih =>
      intro st hall hinv
      obtain ⟨f, hf⟩ := hall r (by simp)
      have hcls : stockCls cfg r.transcode = 0 := by simp [stockCls, hf]
      rw [List.foldl_cons]
      apply ih (stepRow cfg st r) (fun x hx => hall x (by simp [hx]))
      rw [stepRow_stock cfg st r (0, f) hf]
      rw [get_stock_dict_class0 cfg st.stockDict r.date r.transcode r.quantity
        r.price r.amount (((dayTradeListAfter st r).getLastD ("", 0)).2) f hf]
      exact forall_mem_dictSet hinv hcls

theorem stockOutLoop_quantity_sum (cfg : Config) :
    ∀ es (qsum : Int) (asum : ℚ),
      (∀ e ∈ es, stockCls cfg e.1.transcode ≠ 2) →
      (((stockOutLoop cfg es qsum asum).1.map (fun r => r.quantity)).sum)
        = sumQty es := by
  intro es
  induction es with
  | nil =>
      intro qsum asum hall
      rfl
  | cons e rest ih =>
      intro qsum asum hall
      have hcls : stockCls cfg e.1.transcode ≠ 2 := hall e (by simp)
      simp only [stockOutLoop, if_neg hcls]
      by_cases hq : qsum + e.2.1 ≠ 0
      · rw [if_pos hq]
        simp only [List.map_cons, List.sum_cons, sumQty]
        rw [show (((stockOutLoop cfg rest (qsum + e.2.1) (asum + e.2.2)).1.map
              (fun r => r.quantity)).sum) = sumQty rest from
            ih _ _ (fun x hx => hall x (by simp [hx]))]
        rfl
      · rw [if_neg hq]
        simp only [List.map_cons, List.sum_cons, sumQty]
        rw [show (((stockOutLoop cfg rest (qsum + e.2.1) 0).1.map
              (fun r => r.quantity)).sum) = sumQty rest from
            ih _ _ (fun x hx => hall x (by simp [hx]))]
        rfl

/-- C8: for a transaction sequence consisting only of class-0 stock codes,
the sum of the quantities over all emitted `STOCK` rows equals the sum over
the input rows of `factor * quantity` — aggregation and key-merge neither
lose nor fabricate quantity. -/
theorem C8_quantity_conservation (cfg : Config) (rows : List TxnRow)
    (h : ∀ r ∈ rows, ∃ f, cfg.stock r.transcode = some (0, f)) :
    (((save_stock_result cfg
        (get_stock_and_option_dict cfg rows).stockDict).map
      (fun r => r.quantity)).sum)
      = (rows.map (fun r => stockFactor cfg r.transcode * r.quantity)).sum := by
  have hsums := foldl_stock_sums cfg rows ⟨[], [], []⟩ h
  have hkeys := foldl_stock_keys_cls0 cfg rows ⟨[], [], []⟩ h (by simp)
  rw [show save_stock_result cfg (get_stock_and_option_dict cfg rows).stockDict
      = (stockOutLoop cfg
          ((get_stock_and_option_dict cfg rows).stockDict).reverse 0 0).1 from rfl]
  rw [stockOutLoop_quantity_sum cfg
    ((get_stock_and_option_dict cfg rows).stockDict).reverse 0 0
    (fun e he => by
      have := hkeys e (List.mem_reverse.mp he)
      omega)]
  rw [sumQty_reverse]
  have h0 : sumQty (⟨[], [], []⟩ : LedgerState).stockDict = 0 := rfl
  rw [show (get_stock_and_option_dict cfg rows).stockDict
      = (rows.foldl (stepRow cfg) ⟨[], [], []⟩).stockDict from rfl]
  rw [hsums.1, h0, zero_add]

/-- C8 witness: a single class-0 `Buy` row conserves its factor-weighted
quantity through aggregation and output. -/
theorem C8_quantity_conservation_witness :
    (((save_stock_result demoCfg
        (get_stock_and_option_dict demoCfg
          [⟨"2024-01-02", "", "Buy", 2, 10, 20⟩]).stockDict).map
      (fun r => r.quantity)).sum)
      = (([⟨"2024-01-02", "", "Buy", 2, 10, 20⟩] : List TxnRow).map
          (fun r => stockFactor demoCfg r.transcode * r.quantity)).sum :=
  C8_quantity_conservation demoCfg [⟨"2024-01-02", "", "Buy", 2, 10, 20⟩]
    (fun r hr => ⟨1, by rw [List.mem_singleton] at hr; subst hr; decide⟩)

/-! ## Claim C3: profit emission exactly at closure -/

theorem sumQty_cons (e : StockKey × Int × ℚ) (l : List (StockKey × Int × ℚ)) :
    sumQty (e :: l) = e.2.1 + sumQty l := by
  simp [sumQty]

theorem sumAmt_cons (e : StockKey × Int × ℚ) (l : List (StockKey × Int × ℚ)) :
    sumAmt (e :: l) = e.2.2 + sumAmt l := by
  simp [sumAmt]

theorem sumQty_append (l1 l2 : List (StockKey × Int × ℚ)) :
    sumQty (l1 ++ l2) = sumQty l1 + sumQty l2 := by
  simp [sumQty]

theorem sumQty_neg_of_all_neg :
    ∀ es : List (StockKey × Int × ℚ), es ≠ [] → (∀ e ∈ es, e.2.1 < 0) →
      sumQty es < 0 := by
  intro es
  induction es with
  | nil => intro h; exact absurd rfl h
  | cons e rest ih =>
      intro _ hall
      rw [sumQty_cons]
      rcases List.eq_nil_or_concat rest with hr | _
      · subst hr
        have : sumQty ([] : List (StockKey × Int × ℚ)) = 0 := rfl
        have he := hall e (by simp)
        omega
      · by_cases hr : rest = []
        · subst hr
          have he := hall e (by simp)
          have : sumQty ([] : List (StockKey × Int × ℚ)) = 0 := rfl
          omega
        · have he := hall e (by simp)
          have hrest := ih hr (fun x hx => hall x (by simp [hx]))
          omega

theorem sumQty_pos_of_all_pos :
    ∀ es : List (StockKey × Int × ℚ), es ≠ [] → (∀ e ∈ es, 0 < e.2.1) →
      0 < sumQty es := by
  intro es
  induction es with
  | nil => intro h; exact absurd rfl h
  | cons e rest ih =>
      intro _ hall
      rw [sumQty_cons]
      by_cases hr : rest = []
      · subst hr
        have he := hall e (by simp)
        have : sumQty ([] : List (StockKey × Int × ℚ)) = 0 := rfl
        omega
      · have he := hall e (by simp)
        have hrest := ih hr (fun x hx => hall x (by simp [hx]))
        omega

theorem foldl_buy_entries (cfg : Config) (hcb : cfg.stock "Buy" = some (0, 1)) :
    ∀ (buys : List TxnRow) (st : LedgerState),
      (∀ r ∈ buys, r.transcode = "Buy" ∧ 0 < r.quantity) →
      (∀ e ∈ st.stockDict, e.1.transcode = "Buy" ∧ 0 < e.2.1) →
      ∀ e ∈ (buys.foldl (stepRow cfg) st).stockDict,
        e.1.transcode = "Buy" ∧ 0 < e.2.1 := by
  intro buys
  induction buys with
  | nil =>
      intro st hall hinv
      simpa using hinv
  | cons r rest ih =>
      intro st hall hinv
      obtain ⟨htc, hq⟩ := hall r (by simp)
      have hf : cfg.stock r.transcode = some (0, 1) := by rw [htc]; exact hcb
      rw [List.foldl_cons]
      apply ih (stepRow cfg st r) (fun x hx => hall x (by simp [hx]))
      rw [stepRow_stock cfg st r (0, 1) hf]
      rw [get_stock_dict_class0 cfg st.stockDict r.date r.transcode r.quantity
        r.price r.amount (((dayTradeListAfter st r).getLastD ("", 0)).2) 1 hf]
      apply forall_mem_dictSet hinv
      constructor
      · exact htc
      · have hold : 0 ≤ (lookupD st.stockDict
            ⟨r.date, r.transcode, r.price,
              ((dayTradeListAfter st r).getLastD ("", 0)).2⟩ (0, 0)).1 := by
          rcases lookupD_eq_default_or_mem st.stockDict
              ⟨r.date, r.transcode, r.price,
                ((dayTradeListAfter st r).getLastD ("", 0)).2⟩ (0, 0) with hdf | hmem
          · rw [hdf]
          · exact le_of_lt (hinv _ hmem).2
        dsimp only
        omega

theorem foldl_sell_entries (cfg : Config) (hcs : cfg.stock "Sell" = some (0, -1)) :
    ∀ (sells : List TxnRow) (st : LedgerState)
      (dB dS : List (StockKey × Int × ℚ)),
      (∀ r ∈ sells, r.transcode = "Sell" ∧ 0 < r.quantity) →
      (∀ e ∈ dB, e.1.transcode = "Buy") →
      st.stockDict = dB ++ dS →
      (∀ e ∈ dS, e.1.transcode = "Sell" ∧ e.2.1 < 0) →
      ∃ dS2, (sells.foldl (stepRow cfg) st).stockDict = dB ++ dS2
        ∧ ∀ e ∈ dS2, e.1.transcode = "Sell" ∧ e.2.1 < 0 := by
  intro sells
  induction sells with
  | nil =>
      intro st dB dS hall hB hsplit hS
      exact ⟨dS, by simpa using hsplit, hS⟩
  | cons r rest ih =>
      intro st dB dS hall hB hsplit hS
      obtain ⟨htc, hq⟩ := hall r (by simp)
      have hf : cfg.stock r.transcode = some (0, -1) := by rw [htc]; exact hcs
      have hkeyne : ∀ p ∈ dB, p.1
          ≠ (⟨r.date, r.transcode, r.price,
              ((dayTradeListAfter st r).getLastD ("", 0)).2⟩ : StockKey) := by
        intro p hp hpk
        have : p.1.transcode = r.transcode := by rw [hpk]
        rw [hB p hp, htc] at this
        exact absurd this (by decide)
      rw [List.foldl_cons]
      apply ih (stepRow cfg st r) dB
        (dictSet dS
          ⟨r.date, r.transcode, r.price,
            ((dayTradeListAfter st r).getLastD ("", 0)).2⟩
          ((lookupD st.stockDict
              ⟨r.date, r.transcode, r.price,
                ((dayTradeListAfter st r).getLastD ("", 0)).2⟩ (0, 0)).1
              + (-1) * r.quantity,
           (lookupD st.stockDict
              ⟨r.date, r.transcode, r.price,
                ((dayTradeListAfter st r).getLastD ("", 0)).2⟩ (0, 0)).2
              - ((-1 : Int) : ℚ) * r.amount))
        (fun x hx => hall x (by simp [hx])) hB
      · rw [stepRow_stock cfg st r (0, -1) hf]
        rw [get_stock_dict_class0 cfg st.stockDict r.date r.transcode r.quantity
          r.price r.amount (((dayTradeListAfter st r).getLastD ("", 0)).2) (-1) hf]
        rw [show (LedgerState.stockDict
              { st with
                  stockDict := dictSet st.stockDict _ _,
                  dayTrade := dictSet st.dayTrade r.date (dayTradeListAfter st r) })
            = dictSet st.stockDict
                (⟨r.date, r.transcode, r.price,
                  ((dayTradeListAfter st r).getLastD ("", 0)).2⟩ : StockKey)
                ((lookupD st.stockDict
                    ⟨r.date, r.transcode, r.price,
                      ((dayTradeListAfter st r).getLastD ("", 0)).2⟩ (0, 0)).1
                    + (-1) * r.quantity,
                 (lookupD st.stockDict
                    ⟨r.date, r.transcode, r.price,
                      ((dayTradeListAfter st r).getLastD ("", 0)).2⟩ (0, 0)).2
                    - ((-1 : Int) : ℚ) * r.amount) from rfl]
        rw [hsplit, dictSet_append_of_ne _ _ _ _ hkeyne]
      · apply forall_mem_dictSet hS
        constructor
        · exact htc
        · have hold : (lookupD dS
              ⟨r.date, r.transcode, r.price,
                ((dayTradeListAfter st r).getLastD ("", 0)).2⟩ (0, 0)).1 ≤ 0 := by
            rcases lookupD_eq_default_or_mem dS
                ⟨r.date, r.transcode, r.price,
                  ((dayTradeListAfter st r).getLastD ("", 0)).2⟩ (0, 0) with hdf | hmem
            · rw [hdf]
            · exact le_of_lt (hS _ hmem).2
          have hlk : lookupD st.stockDict
              (⟨r.date, r.transcode, r.price,
                ((dayTradeListAfter st r).getLastD ("", 0)).2⟩ : StockKey) (0, 0)
              = lookupD dS
                (⟨r.date, r.transcode, r.price,
                  ((dayTradeListAfter st r).getLastD ("", 0)).2⟩ : StockKey) (0, 0) := by
            rw [hsplit, lookupD_append_of_ne _ _ _ _ hkeyne]
          rw [hlk]
          dsimp only
          omega

theorem take_sumQty_ne_zero (RS RB : List (StockKey × Int × ℚ))
    (hRS : ∀ e ∈ RS, e.2.1 < 0) (hRB : ∀ e ∈ RB, 0 < e.2.1)
    (htotal : sumQty (RS ++ RB) = 0) :
    ∀ k, 0 < k → k < (RS ++ RB).length → sumQty ((RS ++ RB).take k) ≠ 0 := by
  intro k hk hklen
  rw [List.take_append_eq_append_take]
  rw [List.length_append] at hklen
  by_cases hle : k ≤ RS.length
  · rw [Nat.sub_eq_zero_of_le hle, List.take_zero, List.append_nil]
    apply ne_of_lt
    apply sumQty_neg_of_all_neg
    · intro hnil
      have hlen := congrArg List.length hnil
      rw [List.length_take, List.length_nil] at hlen
      omega
    · intro e he
      exact hRS e (List.take_subset k RS he)
  · push_neg at hle
    rw [List.take_of_length_le (le_of_lt hle)]
    rw [sumQty_append] at htotal ⊢
    have hdropne : RB.drop (k - RS.length) ≠ [] := by
      intro hnil
      have := congrArg List.length hnil
      simp [List.length_drop] at this
      omega
    have hdroppos : 0 < sumQty (RB.drop (k - RS.length)) := by
      apply sumQty_pos_of_all_pos _ hdropne
      intro e he
      exact hRB e (List.drop_subset _ RB he)
    have hsplitRB : sumQty (RB.take (k - RS.length))
        + sumQty (RB.drop (k - RS.length)) = sumQty RB := by
      rw [← sumQty_append, List.take_append_drop]
    omega

theorem stockOutLoop_single_closure (cfg : Config) :
    ∀ es (qsum : Int) (asum : ℚ),
      (∀ e ∈ es, stockCls cfg e.1.transcode ≠ 2) →
      es ≠ [] →
      (∀ k, 0 < k → k < es.length → qsum + sumQty (es.take k) ≠ 0) →
      qsum + sumQty es = 0 →
      ((stockOutLoop cfg es qsum asum).1.filterMap (fun r => r.profit)
          = [asum + sumAmt es])
      ∧ (stockOutLoop cfg es qsum asum).2.2 = 0 := by
  intro es
  induction es with
  | nil =>
      intro qsum asum _ hne
      exact absurd rfl hne
  | cons e rest ih =>
      intro qsum asum hall hne hpre htot
      have hcls : stockCls cfg e.1.transcode ≠ 2 := hall e (by simp)
      simp only [stockOutLoop, if_neg hcls]
      by_cases hr : rest = []
      · subst hr
        have hq0 : qsum + e.2.1 = 0 := by
          rw [sumQty_cons] at htot
          have hz : sumQty ([] : List (StockKey × Int × ℚ)) = 0 := rfl
          omega
        rw [if_neg (by omega)]
        constructor
        · rw [show (stockOutLoop cfg [] (qsum + e.2.1) 0).1 = [] from rfl]
          rw [sumAmt_cons]
          have hz : sumAmt ([] : List (StockKey × Int × ℚ)) = 0 := rfl
          rw [hz, add_zero]
          rfl
        · rfl
      · have hlen1 : 1 < (e :: rest).length := by
          cases rest with
          | nil => exact absurd rfl hr
          | cons x xs => simp
        have hq : qsum + e.2.1 ≠ 0 := by
          have h1 := hpre 1 (by omega) hlen1
          rw [show (e :: rest).take 1 = [e] from rfl] at h1
          rw [sumQty_cons] at h1
          have hz : sumQty ([] : List (StockKey × Int × ℚ)) = 0 := rfl
          omega
        rw [if_pos hq]
        have hih := ih (qsum + e.2.1) (asum + e.2.2)
          (fun x hx => hall x (by simp [hx])) hr
          (fun k hk hklen => by
            have h2 := hpre (k + 1) (by omega) (by simp; omega)
            rw [List.take_succ_cons, sumQty_cons] at h2
            omega)
          (by rw [sumQty_cons] at htot; omega)
        constructor
        · rw [show ((⟨e.1.date, e.1.transcode, e.2.1, e.1.price, e.2.2, none⟩ :
                StockOutRow) :: (stockOutLoop cfg rest (qsum + e.2.1)
                  (asum + e.2.2)).1,
              (stockOutLoop cfg rest (qsum + e.2.1) (asum + e.2.2)).2).1
            = (⟨e.1.date, e.1.transcode, e.2.1, e.1.price, e.2.2, none⟩ :
                StockOutRow) :: (stockOutLoop cfg rest (qsum + e.2.1)
                  (asum + e.2.2)).1 from rfl]
          rw [List.filterMap_cons]
          rw [show ((⟨e.1.date, e.1.transcode, e.2.1, e.1.price, e.2.2, none⟩ :
              StockOutRow).profit) = none from rfl]
          rw [hih.1, sumAmt_cons]
          rw [add_assoc]
        · exact hih.2

theorem sum_map_neg_int (l : List Int) : (l.map (fun x => -x)).sum = -l.sum := by
  induction l with
  | nil => simp
  | cons x xs ih =>
      simp [ih]
      omega

/-- C3: for a synthetic stock sequence of buys then sells that nets to zero
quantity, the `STOCK` output pass emits exactly one row with a non-null
`Profit`, and that `Profit` equals the negative sum of the factor-weighted
amounts of the cycle (so buys enter the sum negatively and sells
positively); the running `amount_sum_value` accumulator is reset to `0`
after the emission. -/
theorem C3_profit_emission (cfg : Config) (buys sells : List TxnRow)
    (hcb : cfg.stock "Buy" = some (0, 1))
    (hcs : cfg.stock "Sell" = some (0, -1))
    (hb : ∀ r ∈ buys, r.transcode = "Buy" ∧ 0 < r.quantity)
    (hs : ∀ r ∈ sells, r.transcode = "Sell" ∧ 0 < r.quantity)
    (hne : buys ≠ [])
    (hnet : (buys.map (fun r => r.quantity)).sum
        = (sells.map (fun r => r.quantity)).sum) :
    ((save_stock_result cfg
        (get_stock_and_option_dict cfg (buys ++ sells)).stockDict).filterMap
      (fun r => r.profit))
      = [-(((buys ++ sells).map
          (fun r => (stockFactor cfg r.transcode : ℚ) * r.amount)).sum)]
    ∧ (stockOutLoop cfg
        ((get_stock_and_option_dict cfg (buys ++ sells)).stockDict).reverse
        0 0).2.2 = 0 := by
  have hallf : ∀ r ∈ buys ++ sells, ∃ f, cfg.stock r.transcode = some (0, f) := by
    intro r hr
    rcases List.mem_append.mp hr with h | h
    · exact ⟨1, by rw [(hb r h).1]; exact hcb⟩
    · exact ⟨-1, by rw [(hs r h).1]; exact hcs⟩
  have hdB : ∀ e ∈ (buys.foldl (stepRow cfg) (⟨[], [], []⟩ : LedgerState)).stockDict,
      e.1.transcode = "Buy" ∧ 0 < e.2.1 :=
    foldl_buy_entries cfg hcb buys ⟨[], [], []⟩ hb (by simp)
  obtain ⟨dS2, hsplit, hdS⟩ := foldl_sell_entries cfg hcs sells
    (buys.foldl (stepRow cfg) ⟨[], [], []⟩)
    ((buys.foldl (stepRow cfg) (⟨[], [], []⟩ : LedgerState)).stockDict) [] hs
    (fun e he => (hdB e he).1) (by simp) (by simp)
  have hd : (get_stock_and_option_dict cfg (buys ++ sells)).stockDict
      = (buys.foldl (stepRow cfg) (⟨[], [], []⟩ : LedgerState)).stockDict ++ dS2 := by
    rw [get_stock_and_option_dict, List.foldl_append]
    exact hsplit
  have hsumsB := foldl_stock_sums cfg buys ⟨[], [], []⟩
    (fun r hr => ⟨1, by rw [(hb r hr).1]; exact hcb⟩)
  have hsumsAll := foldl_stock_sums cfg (buys ++ sells) ⟨[], [], []⟩ hallf
  have hfacB : ∀ r ∈ buys, stockFactor cfg r.transcode * r.quantity = r.quantity := by
    intro r hr
    have hfb : stockFactor cfg r.transcode = 1 := by
      rw [(hb r hr).1]
      simp [stockFactor, hcb]
    rw [hfb, one_mul]
  have hsumBq : sumQty (buys.foldl (stepRow cfg) (⟨[], [], []⟩ : LedgerState)).stockDict
      = (buys.map (fun r => r.quantity)).sum := by
    rw [hsumsB.1]
    rw [show sumQty (⟨[], [], []⟩ : LedgerState).stockDict = 0 from rfl, zero_add]
    exact congrArg List.sum (List.map_congr_left hfacB)
  have hbuyqpos : 0 < (buys.map (fun r => r.quantity)).sum := by
    apply List.sum_pos
    · intro x hx
      obtain ⟨r, hr, hxr⟩ := List.mem_map.mp hx
      rw [← hxr]
      exact (hb r hr).2
    · intro hnil
      rw [List.map_eq_nil_iff] at hnil
      exact hne hnil
  have hdBne : (buys.foldl (stepRow cfg) (⟨[], [], []⟩ : LedgerState)).stockDict ≠ [] := by
    intro hnil
    rw [hnil] at hsumBq
    rw [show sumQty ([] : List (StockKey × Int × ℚ)) = 0 from rfl] at hsumBq
    omega
  have hfacS : ∀ r ∈ sells, stockFactor cfg r.transcode * r.quantity = -r.quantity := by
    intro r hr
    have hfs : stockFactor cfg r.transcode = -1 := by
      rw [(hs r hr).1]
      simp [stockFactor, hcs]
    rw [hfs]
    ring
  have hsumAllq : sumQty ((buys ++ sells).foldl (stepRow cfg)
      (⟨[], [], []⟩ : LedgerState)).stockDict = 0 := by
    rw [hsumsAll.1]
    rw [show sumQty (⟨[], [], []⟩ : LedgerState).stockDict = 0 from rfl, zero_add]
    rw [List.map_append, List.sum_append]
    rw [congrArg List.sum (List.map_congr_left hfacB)]
    rw [congrArg List.sum (List.map_congr_left hfacS)]
    rw [show (sells.map fun r => -r.quantity)
        = ((sells.map fun r => r.quantity).map fun x => -x) from by
      rw [List.map_map]
      rfl]
    rw [sum_map_neg_int, hnet]
    omega
  have hnot2 : ∀ e ∈ ((buys ++ sells).foldl (stepRow cfg)
      (⟨[], [], []⟩ : LedgerState)).stockDict, stockCls cfg e.1.transcode ≠ 2 := by
    intro e he
    have h0 := foldl_stock_keys_cls0 cfg (buys ++ sells) ⟨[], [], []⟩ hallf (by simp) e he
    omega
  have hdfold : (get_stock_and_option_dict cfg (buys ++ sells)).stockDict
      = ((buys ++ sells).foldl (stepRow cfg) (⟨[], [], []⟩ : LedgerState)).stockDict := rfl
  have hmain := stockOutLoop_single_closure cfg
    (dS2.reverse ++ ((buys.foldl (stepRow cfg)
      (⟨[], [], []⟩ : LedgerState)).stockDict).reverse) 0 0
    (fun e he => by
      apply hnot2 e
      rw [hdfold] at hd
      rw [hd]
      rcases List.mem_append.mp he with h | h
      · exact List.mem_append.mpr (Or.inr (List.mem_reverse.mp h))
      · exact List.mem_append.mpr (Or.inl (List.mem_reverse.mp h)))
    (by
      apply List.append_ne_nil_of_right_ne_nil
      intro hnil
      rw [List.reverse_eq_nil_iff] at hnil
      exact hdBne hnil)
    (by
      intro k hk hklen
      rw [zero_add]
      apply take_sumQty_ne_zero dS2.reverse
        ((buys.foldl (stepRow cfg) (⟨[], [], []⟩ : LedgerState)).stockDict).reverse
        (fun e he => (hdS e (List.mem_reverse.mp he)).2)
        (fun e he => (hdB e (List.mem_reverse.mp he)).2)
        ?_ k hk hklen
      rw [← List.reverse_append, sumQty_reverse, ← hsplit]
      rw [← List.foldl_append, ← get_stock_and_option_dict]
      rw [hdfold]
      exact hsumAllq)
    (by
      rw [zero_add, ← List.reverse_append, sumQty_reverse, ← hsplit]
      rw [← List.foldl_append, ← get_stock_and_option_dict, hdfold]
      exact hsumAllq)
  have hrev : ((get_stock_and_option_dict cfg (buys ++ sells)).stockDict).reverse
      = dS2.reverse ++ ((buys.foldl (stepRow cfg)
          (⟨[], [], []⟩ : LedgerState)).stockDict).reverse := by
    rw [hd, List.reverse_append]
  have hsumAmt : sumAmt (dS2.reverse ++ ((buys.foldl (stepRow cfg)
      (⟨[], [], []⟩ : LedgerState)).stockDict).reverse)
      = -(((buys ++ sells).map
          (fun r => (stockFactor cfg r.transcode : ℚ) * r.amount)).sum) := by
    rw [← List.reverse_append, sumAmt_reverse, ← hsplit]
    rw [← List.foldl_append, ← get_stock_and_option_dict, hdfold]
    rw [hsumsAll.2]
    rw [show sumAmt (⟨[], [], []⟩ : LedgerState).stockDict = 0 from rfl]
    rw [zero_sub]
  constructor
  · rw [show save_stock_result cfg
        (get_stock_and_option_dict cfg (buys ++ sells)).stockDict
      = (stockOutLoop cfg
          ((get_stock_and_option_dict cfg (buys ++ sells)).stockDict).reverse
          0 0).1 from rfl]
    rw [hrev, hmain.1, hsumAmt, zero_add]
  · rw [hrev]
    exact hmain.2

/-- C3 witness: one buy of 1 share at 10 and one sell of 1 share at 11;
exactly one profit cell is emitted and the accumulator ends at 0. -/
theorem C3_profit_emission_witness :
    ((save_stock_result demoCfg
        (get_stock_and_option_dict demoCfg
          ([⟨"2024-01-02", "", "Buy", 1, 10, 10⟩]
            ++ [⟨"2024-01-03", "", "Sell", 1, 11, 11⟩])).stockDict).filterMap
      (fun r => r.profit))
      = [-(((([⟨"2024-01-02", "", "Buy", 1, 10, 10⟩]
            ++ [⟨"2024-01-03", "", "Sell", 1, 11, 11⟩] : List TxnRow)).map
          (fun r => (stockFactor demoCfg r.transcode : ℚ) * r.amount)).sum)]
    ∧ (stockOutLoop demoCfg
        ((get_stock_and_option_dict demoCfg
          ([⟨"2024-01-02", "", "Buy", 1, 10, 10⟩]
            ++ [⟨"2024-01-03", "", "Sell", 1, 11, 11⟩])).stockDict).reverse
        0 0).2.2 = 0 :=
  C3_profit_emission demoCfg
    [⟨"2024-01-02", "", "Buy", 1, 10, 10⟩]
    [⟨"2024-01-03", "", "Sell", 1, 11, 11⟩]
    (by decide) (by decide) (by decide) (by decide) (by decide) (by decide)
